import Mathlib

/-!
Verification development for the Text-Summarizer-with-GLove repository.

The repository ships a React frontend (frontend/src/App.js,
frontend/src/components/DatasetTable.js) and documents a Python backend
(backend/model.py, backend/preprocess.py, backend/app.py) implementing the
extractive-summarization core described in the specification.  The backend
sources are not part of the checked-out tree, so the core pipeline below is
modelled from the specification (each such definition says so in its doc
comment); the frontend definitions are translated from the JavaScript
sources directly.

Strings are modelled as lists of characters, real-valued scores as members
of a linear ordered field (instantiated at `ℝ` for the pipeline and at `ℚ`
for concrete evaluations), and embedding-vector components as rationals
(every decimal literal in an embedding table is rational).
-/

namespace Summarizer

/-- Character strings, modelled as lists of characters. -/
abbrev Str := List Char

/-- Whitespace test used by trimming (space, tab, newline, carriage return). -/
def isWsC (c : Char) : Bool := c == ' ' || c == '\t' || c == '\n' || c == '\r'

/-- Trim leading and trailing whitespace from a character list. -/
def trimChars (l : Str) : Str :=
  ((l.dropWhile isWsC).reverse.dropWhile isWsC).reverse

/-- Terminal sentence punctuation: `.`, `!`, `?`. -/
def isTermC (c : Char) : Bool := c == '.' || c == '!' || c == '?'

/-- Alphanumeric test used by token splitting. -/
def isAlnumC (c : Char) : Bool := c.isAlpha || c.isDigit

/-- Modelled from the spec (§4.1, backend/preprocess.py is missing from the
tree): split a document at terminal punctuation, accumulating the current
piece in reverse. -/
def splitSents : Str → Str → List Str
  | [], cur => [cur.reverse]
  | c :: rest, cur =>
    if isTermC c then cur.reverse :: splitSents rest []
    else splitSents rest (c :: cur)

/-- Modelled from the spec (§4.1): split a piece into maximal alphanumeric
words. -/
def splitWords : Str → Str → List Str
  | [], cur => [cur.reverse]
  | c :: rest, cur =>
    if isAlnumC c then splitWords rest (c :: cur)
    else cur.reverse :: splitWords rest []

/-- Modelled from the spec (§4.1): a fixed language-specific stop-word list. -/
def stopwords : List Str :=
  ["a", "an", "the", "is", "are", "was", "were", "and", "or", "of", "to",
   "in", "on", "for", "with", "it", "this", "that", "be", "as", "at",
   "by", "from"].map (fun s => s.data)

/-- Modelled from the spec: reduction of a token to a normalized root form.
The spec leaves the exact stemming/lemmatization ruleset open (§9), so it is
modelled as the identity. -/
def stem (w : Str) : Str := w

/-- Modelled from the spec (§4.1): lowercase, strip non-alphanumeric symbols,
remove stop-words, and stem. -/
def normTokens (l : Str) : List Str :=
  ((((splitWords (l.map Char.toLower) []).filter
      (fun w => !w.isEmpty)).filter
      (fun w => !(stopwords.contains w))).map stem)

/-- A sentence: its original (trimmed) text for final assembly and its
normalized token sequence (spec §3). -/
structure Sentence where
  text : Str
  toks : List Str
  deriving DecidableEq, Repr

instance : Inhabited Sentence := ⟨⟨[], []⟩⟩

/-- Modelled from the spec (§4.1, contract `segment`): split on sentence
boundaries, trim each piece, keep the non-empty pieces (so empty or
whitespace-only input yields the empty sequence), and attach the normalized
token sequence to each retained sentence. -/
def segment (doc : Str) : List Sentence :=
  (((splitSents doc []).map trimChars).filter
      (fun s => !s.isEmpty)).map (fun t => ⟨t, normTokens t⟩)

/-- Modelled from the spec (§4.2, backend data; the GloVe loader is not in
the tree): the process-wide read-only Embedding Store, a fixed dimensionality
together with a token-to-vector lookup (absent tokens are out-of-vocabulary).
Vector components are rationals (any decimal literal of an embedding table
is rational). -/
structure Store where
  dim : ℕ
  lookup : Str → Option (List ℚ)

/-- The zero vector of a given dimension. -/
def zeroVec (D : ℕ) : List ℚ := List.replicate D 0

/-- Componentwise vector addition. -/
def vecAdd (v w : List ℚ) : List ℚ := List.zipWith (· + ·) v w

/-- Modelled from the spec (§4.3, contract `vectorize`): the componentwise
mean of the embedding vectors of the in-vocabulary tokens of a sentence;
the zero vector when no token is in vocabulary. -/
def vectorize (st : Store) (s : Sentence) : List ℚ :=
  let vs := s.toks.filterMap st.lookup
  match vs with
  | [] => zeroVec st.dim
  | _ => (vs.foldl vecAdd (zeroVec st.dim)).map (fun x => x / (vs.length : ℚ))

/-- Dot product of two component lists (missing components count as zero). -/
def dot (v w : List ℚ) : ℚ :=
  ∑ i ∈ Finset.range (min v.length w.length), v.getD i 0 * w.getD i 0

/-- Modelled from the spec (§4.4): cosine similarity
`dot(v, w) / (‖v‖ · ‖w‖)`, defined as `0` when either vector has zero
magnitude (`dot v v = 0` is exactly `‖v‖ = 0`). -/
noncomputable def cosSim (v w : List ℚ) : ℝ :=
  if dot v v = 0 ∨ dot w w = 0 then 0
  else (dot v w : ℝ) / (Real.sqrt (dot v v) * Real.sqrt (dot w w))

/-- Modelled from the spec (§4.4, contract `build`): the dense similarity
graph over sentence vectors, entry `(i, j)` being the cosine similarity of
vectors `i` and `j` (out-of-range indices give the empty vector, whose
similarities are `0`). -/
noncomputable def build (vecs : List (List ℚ)) : ℕ → ℕ → ℝ :=
  fun i j => cosSim (vecs.getD i []) (vecs.getD j [])

/-- The damping factor, fixed at 0.85 (spec §4.5). -/
def damping (α : Type) [LinearOrderedField α] : α := 17 / 20

/-- The convergence threshold 1e-4 (spec §4.5). -/
def tol (α : Type) [LinearOrderedField α] : α := 1 / 10000

/-- The iteration cap (spec §4.5). -/
def maxIter : ℕ := 100

/-- Modelled from the spec (§4.5): a node's total outgoing edge weight,
self-similarity excluded. -/
def outW {α : Type} [LinearOrderedField α] (S : ℕ) (g : ℕ → ℕ → α) (j : ℕ) : α :=
  ∑ k ∈ (Finset.range S).erase j, g j k

/-- Modelled from the spec (§4.5): the contribution of neighbor `j` to
sentence `i`, normalized by `j`'s total outgoing edge weight; a zero
out-degree node contributes zero (no division by zero). -/
def neighborContrib {α : Type} [LinearOrderedField α]
    (S : ℕ) (g : ℕ → ℕ → α) (s : ℕ → α) (j i : ℕ) : α :=
  if outW S g j = 0 then 0 else g j i / outW S g j * s j

/-- Modelled from the spec (§4.5): one ranking iteration — every sentence's
new score is a damped combination of a uniform base score and the weighted
sum of the neighbors' prior scores. -/
def rankStep {α : Type} [LinearOrderedField α]
    (S : ℕ) (g : ℕ → ℕ → α) (s : ℕ → α) : ℕ → α :=
  fun i => (1 - damping α) / (S : α) +
    damping α * ∑ j ∈ (Finset.range S).erase i, neighborContrib S g s j i

/-- Modelled from the spec (§4.5): scores are initialized uniformly to
`1/S`. -/
def rankInit (α : Type) [LinearOrderedField α] (S : ℕ) : ℕ → α :=
  fun _ => 1 / (S : α)

/-- The maximum absolute score change across all sentences. -/
def maxChange {α : Type} [LinearOrderedField α] (S : ℕ) (s s' : ℕ → α) : α :=
  ((List.range S).map (fun i => |s' i - s i|)).foldr max 0

/-- Modelled from the spec (§4.5, §9): the explicit convergence loop with an
iteration cap; returns the final scores and the number of iterations
performed, stopping as soon as the maximum absolute change falls below the
threshold. -/
def rankGo {α : Type} [LinearOrderedField α] (S : ℕ) (g : ℕ → ℕ → α) :
    ℕ → (ℕ → α) → ((ℕ → α) × ℕ)
  | 0, s => (s, 0)
  | fuel + 1, s =>
    let s' := rankStep S g s
    if maxChange S s s' < tol α then (s', 1)
    else
      let r := rankGo S g fuel s'
      (r.1, r.2 + 1)

/-- Modelled from the spec (§4.5, contract `rank`): scores with iteration
count; a single-sentence graph trivially gets score 1.0 with zero
iterations, otherwise the convergence loop runs from the uniform
initialization. -/
def rankResult {α : Type} [LinearOrderedField α] (S : ℕ) (g : ℕ → ℕ → α) :
    (ℕ → α) × ℕ :=
  if S = 1 then (fun _ => 1, 0) else rankGo S g maxIter (rankInit α S)

/-- The Ranker's score assignment (spec §4.5). -/
def rank {α : Type} [LinearOrderedField α] (S : ℕ) (g : ℕ → ℕ → α) : ℕ → α :=
  (rankResult S g).1

/-- The number of iterations the Ranker performed. -/
def rankSteps {α : Type} [LinearOrderedField α] (S : ℕ) (g : ℕ → ℕ → α) : ℕ :=
  (rankResult S g).2

/-- Modelled from the spec (§4.6): ranking order on sentence indices —
descending score, ties broken by ascending original index. -/
abbrev rankRel {α : Type} [LinearOrder α] (s : ℕ → α) (i j : ℕ) : Prop :=
  s j < s i ∨ (s i = s j ∧ i ≤ j)

/-- Modelled from the spec (§4.6): the requested count clamped to
`[1, total sentence count]`. -/
def clampCount (count S : ℕ) : ℕ := min (max count 1) S

/-- Modelled from the spec (§4.6): sort indices by descending score with
ascending-index tie-break, take the clamped top count, and re-sort the
chosen indices back into ascending original document order. -/
def selectIndices {α : Type} [LinearOrder α] (S count : ℕ) (scores : ℕ → α) :
    List ℕ :=
  List.insertionSort (· ≤ ·)
    ((List.insertionSort (rankRel scores) (List.range S)).take (clampCount count S))

/-- Concatenate sentence texts with a single separating space (spec §4.6). -/
def joinTexts (ts : List Str) : Str := List.intercalate [' '] ts

/-- Modelled from the spec (§4.6, contract `select`): assemble the summary
from the selected sentences' original texts in original document order. -/
def select {α : Type} [LinearOrder α]
    (sentences : List Sentence) (scores : ℕ → α) (count : ℕ) : Str :=
  joinTexts ((selectIndices sentences.length count scores).map
    (fun i => (sentences.getD i default).text))

/-- The scores the pipeline assigns to the sentences of a document. -/
noncomputable def docScores (st : Store) (doc : Str) : ℕ → ℝ :=
  rank (segment doc).length (build ((segment doc).map (vectorize st)))

/-- Modelled from the spec (§2, §6, contract `summarize`): the full pipeline
segment → vectorize → build → rank → select. -/
noncomputable def summarize (st : Store) (doc : Str) (count : ℕ) : Str :=
  select (segment doc) (docScores st doc) count

/-! Frontend model, translated from frontend/src/App.js (both checked-in
variants have identical summarize-request logic). -/

/-- From App.js: `const presetToN = { short: 1, medium: 3, long: 5 }` as a
partial map; absent keys give `none` (JavaScript `undefined`). The sent
value is an integer (JavaScript number from this map or the number input). -/
def presetToN (p : String) : Option ℤ :=
  if p = "short" then some 1
  else if p = "medium" then some 3
  else if p = "long" then some 5
  else none

/-- From App.js: `const n = presetToN[lengthPreset] ?? sentences`. -/
def nValue (lengthPreset : String) (sentences : ℤ) : ℤ :=
  (presetToN lengthPreset).getD sentences

/-- The POST body `{ text, sentences: n }` of a summarize request. -/
structure SummarizeRequest where
  text : Str
  sentences : ℤ
  deriving DecidableEq, Repr

/-- From App.js `doSummarize`: if the entered text is empty after trimming,
alert and send nothing (`none`); otherwise issue the request with the raw
text and the preset-derived sentence count. -/
def doSummarize (text : Str) (lengthPreset : String) (sentences : ℤ) :
    Option SummarizeRequest :=
  if (trimChars text).isEmpty then none
  else some ⟨text, nValue lengthPreset sentences⟩

/-- The only events that write `lengthPreset`: the three preset buttons
(App.js, `onClick={() => setLengthPreset('short' | 'medium' | 'long')}`). -/
inductive PresetEvent where
  | short
  | medium
  | long
  deriving DecidableEq, Repr

/-- State transition of `lengthPreset` under a preset-button click. -/
def presetStep (_ : String) : PresetEvent → String
  | .short => "short"
  | .medium => "medium"
  | .long => "long"

/-- The `lengthPreset` state reached after a sequence of preset-button
clicks, starting from the initial `useState("medium")`. -/
def presetReach (evts : List PresetEvent) : String :=
  evts.foldl presetStep "medium"

/-! DatasetTable model, translated from
frontend/src/components/DatasetTable.js. -/

/-- A dataset row `{ TEST DATASET, Introduction, Summary }`. -/
structure Row where
  key : Str
  intro : Str
  summ : Str
  deriving DecidableEq, Repr

/-- Does `pat` occur as a contiguous run at the front of `l`? -/
def startsWithChars : Str → Str → Bool
  | _, [] => true
  | [], _ :: _ => false
  | c :: l, d :: p => c == d && startsWithChars l p

/-- Does `pat` occur as a contiguous run anywhere in `l` (JavaScript
`String.prototype.includes`)? -/
def hasSub (pat : Str) : Str → Bool
  | [] => startsWithChars [] pat
  | c :: t => startsWithChars (c :: t) pat || hasSub pat t

/-- DatasetTable component state: the `data` prop and the `q`/`page`
`useState` hooks. -/
structure DTState where
  data : List Row
  q : Str
  page : ℕ
  deriving DecidableEq, Repr

/-- From DatasetTable.js: the filtered rows — empty data gives `[]`, an
empty query gives the data unchanged, otherwise keep rows whose lowercased
Introduction or Summary contains the lowercased query. -/
def filteredRows (s : DTState) : List Row :=
  if s.data.isEmpty then []
  else if s.q.isEmpty then s.data
  else
    s.data.filter (fun r =>
      hasSub (s.q.map Char.toLower) (r.intro.map Char.toLower) ||
      hasSub (s.q.map Char.toLower) (r.summ.map Char.toLower))

/-- The fixed page size, `const pageSize = 6`. -/
def pageSize : ℕ := 6

/-- From DatasetTable.js:
`pageCount = Math.max(1, Math.ceil(filtered.length / pageSize))`. -/
def pageCount (s : DTState) : ℕ :=
  max 1 (((filteredRows s).length + (pageSize - 1)) / pageSize)

/-- JavaScript `Array.prototype.slice(a, b)` for `0 ≤ a ≤ b`. -/
def listSlice {β : Type} (a b : ℕ) (l : List β) : List β :=
  (l.drop a).take (b - a)

/-- From DatasetTable.js:
`pageData = filtered.slice((page-1)*pageSize, page*pageSize)`. -/
def pageData (s : DTState) : List Row :=
  listSlice ((s.page - 1) * pageSize) (s.page * pageSize) (filteredRows s)

/-- The events that can change the component's observable state: the parent
replacing the `data` prop, an edit of the search input (`setQ` followed by
`setPage(1)`), and the Prev/Next pagination buttons. -/
inductive DTEvent where
  | setData (rows : List Row)
  | editSearch (q : Str)
  | clickPrev
  | clickNext
  deriving DecidableEq, Repr

/-- State transition of DatasetTable: `setData` re-renders with a new prop,
`editSearch` runs `setQ(v); setPage(1)`, Prev runs
`setPage(p => Math.max(1, p-1))`, Next runs
`setPage(p => Math.min(pageCount, p+1))`. -/
def dtStep (s : DTState) : DTEvent → DTState
  | .setData rows => { s with data := rows }
  | .editSearch q => { s with q := q, page := 1 }
  | .clickPrev => { s with page := max 1 (s.page - 1) }
  | .clickNext => { s with page := min (pageCount s) (s.page + 1) }

/-- Initial state: the App mounts the table with `dataset = []`, and the
hooks start at `q = ""`, `page = 1`. -/
def dtInit : DTState := ⟨[], [], 1⟩

/-- The state reached after a sequence of events. -/
def dtReach (evts : List DTEvent) : DTState :=
  evts.foldl dtStep dtInit

/-! Helper lemmas for the frontend claims. -/

/-- After any sequence of preset-button clicks, `lengthPreset` is one of the
three preset keys. -/
lemma foldl_presetStep_mem (evts : List PresetEvent) :
    ∀ s : String, (s = "short" ∨ s = "medium" ∨ s = "long") →
      (evts.foldl presetStep s = "short" ∨ evts.foldl presetStep s = "medium" ∨
        evts.foldl presetStep s = "long") := by
  induction evts with
  | nil => intro s h; exact h
  | cons e rest ih =>
    intro s _
    cases e with
    | short => exact ih "short" (Or.inl rfl)
    | medium => exact ih "medium" (Or.inr (Or.inl rfl))
    | long => exact ih "long" (Or.inr (Or.inr rfl))

lemma presetReach_mem (evts : List PresetEvent) :
    presetReach evts = "short" ∨ presetReach evts = "medium" ∨
      presetReach evts = "long" :=
  foldl_presetStep_mem evts "medium" (Or.inr (Or.inl rfl))

/-- On every reachable preset the preset map is defined and yields 1, 3
or 5. -/
lemma presetToN_reach (evts : List PresetEvent) :
    presetToN (presetReach evts) = some 1 ∨ presetToN (presetReach evts) = some 3 ∨
      presetToN (presetReach evts) = some 5 := by
  rcases presetReach_mem evts with h | h | h <;> rw [h] <;> simp [presetToN]

/-- Every reachable DatasetTable state has a positive page number. -/
lemma foldl_dtStep_page_pos (evts : List DTEvent) :
    ∀ s : DTState, 1 ≤ s.page → 1 ≤ (evts.foldl dtStep s).page := by
  induction evts with
  | nil => intro s h; exact h
  | cons e rest ih =>
    intro s h
    cases e with
    | setData rows => exact ih _ h
    | editSearch q => exact ih _ (le_refl 1)
    | clickPrev => exact ih _ (le_max_left 1 _)
    | clickNext =>
      exact ih _ (le_min (le_max_left 1 _) (by omega))

/-- claim C8 — the transport layer always satisfies the core's
precondition: `doSummarize` sends nothing when the entered text trims to
empty, and any request it does send carries the raw (non-trivially
whitespace) text and a sentence count drawn from the preset mapping, hence
a positive integer. -/
theorem claim_c8 (evts : List PresetEvent) (text : Str) (sentences : ℤ) :
    ((trimChars text).isEmpty = true →
      doSummarize text (presetReach evts) sentences = none) ∧
    (∀ req, doSummarize text (presetReach evts) sentences = some req →
      req.text = text ∧ (trimChars req.text).isEmpty = false ∧
      1 ≤ req.sentences ∧
      (req.sentences = 1 ∨ req.sentences = 3 ∨ req.sentences = 5)) := by
  constructor
  · intro h
    simp [doSummarize, h]
  · intro req hreq
    by_cases h : (trimChars text).isEmpty
    · simp [doSummarize, h] at hreq
    · rw [doSummarize, if_neg (by simp [h])] at hreq
      have hr : req = ⟨text, nValue (presetReach evts) sentences⟩ :=
        (Option.some_injective _ hreq).symm
      subst hr
      refine ⟨rfl, by simpa using h, ?_, ?_⟩
      · rcases presetToN_reach evts with hp | hp | hp <;>
          simp [nValue, hp]
      · rcases presetToN_reach evts with hp | hp | hp <;>
          simp [nValue, hp]

/-- Witness for claim C8 at concrete inputs: whitespace-only text sends
nothing, and a non-empty text sends a request with a positive count. -/
theorem claim_c8_witness :
    doSummarize " ".data (presetReach []) 0 = none ∧
    1 ≤ (SummarizeRequest.mk "hi".data 3).sentences := by
  refine ⟨(claim_c8 [] " ".data 0).1 (by decide), ?_⟩
  exact ((claim_c8 [] "hi".data 0).2 ⟨"hi".data, 3⟩ (by decide)).2.2.1

/-- claim C9 — the sentence count sent with every summarize request comes
from the preset mapping and is one of 1, 3, 5; since `lengthPreset` is only
ever one of the three preset keys, the `?? sentences` fallback to the
user-editable number input is unreachable and that input never affects the
request. -/
theorem claim_c9 (evts : List PresetEvent) (s1 s2 : ℤ) :
    nValue (presetReach evts) s1 = nValue (presetReach evts) s2 ∧
    (nValue (presetReach evts) s1 = 1 ∨ nValue (presetReach evts) s1 = 3 ∨
      nValue (presetReach evts) s1 = 5) ∧
    presetToN (presetReach evts) ≠ none := by
  rcases presetToN_reach evts with hp | hp | hp <;>
    simp [nValue, hp]

/-- A 13-row dataset (filtered row count 13, hence 3 pages of size 6). -/
def rows13 : List Row := List.replicate 13 ⟨['x'], [], []⟩

/-- Event trace refuting claim C10: load 13 rows, page forward twice
(page 3 of 3), shrink the dataset to one row (one page), then click Prev. -/
def c10Trace : List DTEvent :=
  [.setData rows13, .clickNext, .clickNext, .setData [⟨['y'], [], []⟩],
   .clickPrev]

/-- counterexample to claim C10 — after the trace above, whose final event
is a Prev click, the page number is 2 while pageCount is 1, so the Prev
handler did not clamp the page into `[1, pageCount]`: `max 1 (page - 1)`
only clamps from below, and a shrink of the `data` prop leaves the page
above the new page count. -/
theorem claim_c10_counterexample :
    (dtReach c10Trace).page = 2 ∧ pageCount (dtReach c10Trace) = 1 ∧
    ¬((dtReach c10Trace).page ≤ pageCount (dtReach c10Trace)) := by
  refine ⟨by decide, by decide, by decide⟩

/-- claim C10 (amended) — in every reachable DatasetTable state: pageCount
equals `max 1 (ceil(filteredRowCount / 6))`; the displayed page holds at
most 6 rows and is a sublist of the filtered rows, which are a sublist of
the input data (rows keep their input order); editing the search query
resets the page to 1; every reachable page number is at least 1; a Next
click always leaves the page in `[1, pageCount]`; and a Prev click leaves
the page in `[1, pageCount]` provided the page was not already above
pageCount (after the data prop shrinks, the page can exceed pageCount and a
single Prev click need not restore it). -/
theorem claim_c10_amended (evts : List DTEvent) :
    pageCount (dtReach evts) =
      max 1 (((filteredRows (dtReach evts)).length + 5) / 6) ∧
    (pageData (dtReach evts)).length ≤ 6 ∧
    (pageData (dtReach evts)).Sublist (filteredRows (dtReach evts)) ∧
    (filteredRows (dtReach evts)).Sublist (dtReach evts).data ∧
    (∀ q, (dtStep (dtReach evts) (.editSearch q)).page = 1) ∧
    1 ≤ (dtReach evts).page ∧
    (1 ≤ (dtStep (dtReach evts) .clickNext).page ∧
      (dtStep (dtReach evts) .clickNext).page ≤
        pageCount (dtStep (dtReach evts) .clickNext)) ∧
    ((dtReach evts).page ≤ pageCount (dtReach evts) →
      1 ≤ (dtStep (dtReach evts) .clickPrev).page ∧
      (dtStep (dtReach evts) .clickPrev).page ≤
        pageCount (dtStep (dtReach evts) .clickPrev)) := by
  have hpos : 1 ≤ (dtReach evts).page :=
    foldl_dtStep_page_pos evts dtInit (le_refl 1)
  have hpcpos : 1 ≤ pageCount (dtReach evts) := le_max_left 1 _
  refine ⟨rfl, ?_, ?_, ?_, fun q => rfl, hpos, ⟨?_, ?_⟩, fun h => ⟨?_, ?_⟩⟩
  · calc (pageData (dtReach evts)).length
        ≤ (dtReach evts).page * pageSize - ((dtReach evts).page - 1) * pageSize := by
          simp only [pageData, listSlice]
          exact (List.length_take _ _).trans_le (min_le_left _ _)
      _ ≤ 6 := by simp [pageSize]; omega
  · exact ((List.take_sublist _ _).trans (List.drop_sublist _ _))
  · rw [filteredRows]
    split
    · exact List.nil_sublist _
    · split
      · exact List.Sublist.refl _
      · exact List.filter_sublist _
  · exact le_min hpcpos (by omega)
  · exact min_le_left _ _
  · exact le_max_left 1 _
  · show max 1 ((dtReach evts).page - 1) ≤ pageCount (dtReach evts)
    omega

/-- Witness for the amended claim C10 at the empty trace (initial state),
discharging the Prev-click hypothesis there. -/
theorem claim_c10_amended_witness :
    1 ≤ (dtStep (dtReach []) .clickPrev).page ∧
    (dtStep (dtReach []) .clickPrev).page ≤
      pageCount (dtStep (dtReach []) .clickPrev) :=
  (claim_c10_amended []).2.2.2.2.2.2.2 (by decide)

/-! Helper lemmas for the core pipeline claims. -/

/-- Whitespace characters are not sentence terminators. -/
lemma ws_not_term {c : Char} (h : isWsC c = true) : isTermC c = false := by
  simp only [isWsC, Bool.or_eq_true, beq_iff_eq] at h
  rcases h with ((h | h) | h) | h <;> subst h <;> decide

/-- A list of whitespace characters trims to the empty list. -/
lemma trimChars_ws {l : Str} (h : ∀ c ∈ l, isWsC c = true) : trimChars l = [] := by
  have h1 : l.dropWhile isWsC = [] := List.dropWhile_eq_nil_iff.mpr h
  simp [trimChars, h1]

/-- Every piece produced by splitting an all-whitespace document (with an
all-whitespace accumulator) is all-whitespace. -/
lemma splitSents_ws : ∀ (doc cur : Str), (∀ c ∈ doc, isWsC c = true) →
    (∀ c ∈ cur, isWsC c = true) →
    ∀ p ∈ splitSents doc cur, ∀ c ∈ p, isWsC c = true := by
  intro doc
  induction doc with
  | nil =>
    intro cur _ hcur p hp c hc
    simp only [splitSents, List.mem_singleton] at hp
    subst hp
    exact hcur c (List.mem_reverse.mp hc)
  | cons d rest ih =>
    intro cur hdoc hcur p hp c hc
    have hd : isWsC d = true := hdoc d (List.mem_cons_self d rest)
    rw [splitSents, if_neg (by simp [ws_not_term hd])] at hp
    exact ih (d :: cur)
      (fun x hx => hdoc x (List.mem_cons_of_mem d hx))
      (fun x hx => by
        rcases List.mem_cons.mp hx with h | h
        · subst h; exact hd
        · exact hcur x h) p hp c hc

/-- Empty or whitespace-only input yields no sentences. -/
lemma segment_ws {doc : Str} (h : ∀ c ∈ doc, isWsC c = true) :
    segment doc = [] := by
  rw [segment]
  have hf : (((splitSents doc []).map trimChars).filter (fun s => !s.isEmpty)) = [] := by
    rw [List.filter_eq_nil_iff]
    intro a ha
    rcases List.mem_map.mp ha with ⟨p, hp, rfl⟩
    have : trimChars p = [] :=
      trimChars_ws (splitSents_ws doc [] h (by simp) p hp)
    simp [this]
  rw [hf]
  rfl

/-- Selecting from an empty sentence list assembles the empty summary. -/
lemma select_nil {α : Type} [LinearOrder α] (scores : ℕ → α) (count : ℕ) :
    select [] scores count = [] := by
  simp [select, selectIndices, clampCount, joinTexts, List.intercalate]

/-- If a document has no extractable sentences the whole pipeline returns
the empty summary. -/
lemma summarize_of_segment_nil (st : Store) (doc : Str) (count : ℕ)
    (h : segment doc = []) : summarize st doc count = [] := by
  rw [summarize, h]
  exact select_nil _ _

/-- A concrete degraded store used by witnesses: dimension 2, every lookup
absent. -/
def st0 : Store := ⟨2, fun _ => none⟩

/-- claim C3 — for every empty or whitespace-only input string and every
requested count, `segment` yields the empty sentence sequence and
`summarize` returns the empty summary; both are total functions here, so no
exception can be raised. -/
theorem claim_c3 (st : Store) (doc : Str) (k : ℕ)
    (h : ∀ c ∈ doc, isWsC c = true) :
    segment doc = [] ∧ summarize st doc k = [] := by
  have hseg := segment_ws h
  exact ⟨hseg, summarize_of_segment_nil st doc k hseg⟩

/-- Witness for claim C3: the empty string and a whitespace-only string,
with `k = 3`, both give the empty summary. -/
theorem claim_c3_witness :
    (segment [] = [] ∧ summarize st0 [] 3 = []) ∧
    (segment " ".data = [] ∧ summarize st0 " ".data 3 = []) :=
  ⟨claim_c3 st0 [] 3 (by decide), claim_c3 st0 " ".data 3 (by decide)⟩

/-- The selected indices are a permutation of the clamped top segment of the
ranking order. -/
lemma selectIndices_perm {α : Type} [LinearOrder α] (S count : ℕ) (scores : ℕ → α) :
    List.Perm (selectIndices S count scores)
      ((List.insertionSort (rankRel scores) (List.range S)).take (clampCount count S)) :=
  List.perm_insertionSort _ _

/-- Exactly `min (max count 1) S` sentence indices are selected. -/
lemma selectIndices_length {α : Type} [LinearOrder α] (S count : ℕ) (scores : ℕ → α) :
    (selectIndices S count scores).length = clampCount count S := by
  rw [(selectIndices_perm S count scores).length_eq, List.length_take,
    List.length_insertionSort, List.length_range]
  exact Nat.min_eq_left (min_le_right _ _)

/-- The selected indices are pairwise distinct. -/
lemma selectIndices_nodup {α : Type} [LinearOrder α] (S count : ℕ) (scores : ℕ → α) :
    (selectIndices S count scores).Nodup := by
  refine (selectIndices_perm S count scores).nodup_iff.mpr ?_
  refine (List.take_sublist _ _).nodup ?_
  exact (List.perm_insertionSort (rankRel scores) (List.range S)).nodup_iff.mpr
    (List.nodup_range S)

/-- Every selected index is a valid sentence index. -/
lemma selectIndices_subset {α : Type} [LinearOrder α] (S count : ℕ) (scores : ℕ → α) :
    selectIndices S count scores ⊆ List.range S := by
  intro i hi
  have h1 : i ∈ (List.insertionSort (rankRel scores) (List.range S)).take
      (clampCount count S) := (selectIndices_perm S count scores).subset hi
  have h2 : i ∈ List.insertionSort (rankRel scores) (List.range S) :=
    (List.take_sublist _ _).subset h1
  exact (List.perm_insertionSort (rankRel scores) (List.range S)).subset h2

/-- The selected indices are listed in strictly increasing original
document order. -/
lemma selectIndices_sorted {α : Type} [LinearOrder α] (S count : ℕ) (scores : ℕ → α) :
    List.Sorted (· < ·) (selectIndices S count scores) := by
  have hle : List.Sorted (· ≤ ·) (selectIndices S count scores) :=
    List.sorted_insertionSort (· ≤ ·) _
  exact hle.lt_of_le (selectIndices_nodup S count scores)

/-- claim C1 — for every document and requested count, the chosen sentence
indices come out of the Selector in strictly (hence non-decreasingly)
increasing original order, each index denotes a sentence of the document,
and the summary is exactly the concatenation of the chosen sentences'
original texts in that order. -/
theorem claim_c1 (st : Store) (doc : Str) (k : ℕ) :
    List.Sorted (· < ·)
      (selectIndices (segment doc).length k (docScores st doc)) ∧
    selectIndices (segment doc).length k (docScores st doc) ⊆
      List.range (segment doc).length ∧
    summarize st doc k = joinTexts
      ((selectIndices (segment doc).length k (docScores st doc)).map
        (fun i => ((segment doc).getD i default).text)) :=
  ⟨selectIndices_sorted _ _ _, selectIndices_subset _ _ _, rfl⟩

/-- Witness for claim C1 at a concrete two-sentence document. -/
theorem claim_c1_witness :
    List.Sorted (· < ·)
      (selectIndices (segment "b. a.".data).length 1 (docScores st0 "b. a.".data)) ∧
    summarize st0 "b. a.".data 1 = joinTexts
      ((selectIndices (segment "b. a.".data).length 1 (docScores st0 "b. a.".data)).map
        (fun i => ((segment "b. a.".data).getD i default).text)) :=
  ⟨(claim_c1 st0 "b. a.".data 1).1, (claim_c1 st0 "b. a.".data 1).2.2⟩

/-- counterexample to claim C2 — the input " " (a single space) is a
non-empty input text, yet it has no extractable sentences, so for every
requested count the summary contains zero sentences and the summary string
is empty: the "at least 1" lower bound fails for non-empty but
whitespace-only input (consistently with C3 and spec §4.1, which make such
input yield the empty sequence). -/
theorem claim_c2_counterexample :
    " ".data ≠ [] ∧
    (selectIndices (segment " ".data).length 3 (docScores st0 " ".data)).length = 0 ∧
    summarize st0 " ".data 3 = [] := by
  have hseg : segment " ".data = [] := segment_ws (by decide)
  refine ⟨by decide, ?_, summarize_of_segment_nil st0 " ".data 3 hseg⟩
  rw [selectIndices_length, hseg]
  rfl

/-- claim C2 (amended) — for a fixed document with at least one extracted
sentence, the number of selected sentences equals `min (max k 1) S`: it is
at least 1, never exceeds the total sentence count `S`, and is
non-decreasing in the requested count; the summary concatenates exactly
those sentences. For non-empty but whitespace-only input the document has
no sentences and the count is 0. -/
theorem claim_c2 (st : Store) (doc : Str) (k k' : ℕ)
    (h1 : 1 ≤ (segment doc).length) (h2 : k ≤ k') :
    (selectIndices (segment doc).length k (docScores st doc)).length =
      min (max k 1) (segment doc).length ∧
    1 ≤ (selectIndices (segment doc).length k (docScores st doc)).length ∧
    (selectIndices (segment doc).length k (docScores st doc)).length ≤
      (segment doc).length ∧
    (selectIndices (segment doc).length k (docScores st doc)).length ≤
      (selectIndices (segment doc).length k' (docScores st doc)).length ∧
    summarize st doc k = joinTexts
      ((selectIndices (segment doc).length k (docScores st doc)).map
        (fun i => ((segment doc).getD i default).text)) := by
  rw [selectIndices_length, selectIndices_length]
  refine ⟨rfl, ?_, ?_, ?_, rfl⟩
  · exact le_min (le_max_right k 1) h1
  · exact min_le_right _ _
  · exact min_le_min (max_le_max h2 (le_refl 1)) (le_refl _)

/-- Witness for the amended claim C2 at a concrete two-sentence document
with k = 1 ≤ k' = 3. -/
theorem claim_c2_witness :
    1 ≤ (selectIndices (segment "a. b.".data).length 1 (docScores st0 "a. b.".data)).length ∧
    (selectIndices (segment "a. b.".data).length 1 (docScores st0 "a. b.".data)).length ≤
      (selectIndices (segment "a. b.".data).length 3 (docScores st0 "a. b.".data)).length :=
  ⟨(claim_c2 st0 "a. b.".data 1 3 (by decide) (by decide)).2.1,
   (claim_c2 st0 "a. b.".data 1 3 (by decide) (by decide)).2.2.2.1⟩

/-- A vector's squared magnitude `dot v v` is non-negative. -/
lemma dot_self_nonneg (v : List ℚ) : 0 ≤ dot v v :=
  Finset.sum_nonneg (fun _ _ => mul_self_nonneg _)

/-- The dot product is commutative. -/
lemma dot_comm (v w : List ℚ) : dot v w = dot w v := by
  rw [dot, dot, Nat.min_comm]
  exact Finset.sum_congr rfl (fun i _ => mul_comm _ _)

/-- The squared magnitude dominates the partial sum of squares over any
prefix range. -/
lemma sum_sq_le_dot_self (v : List ℚ) (m : ℕ) (hm : m ≤ v.length) :
    ∑ i ∈ Finset.range m, v.getD i 0 ^ 2 ≤ dot v v := by
  have hdd : dot v v = ∑ i ∈ Finset.range v.length, v.getD i 0 ^ 2 := by
    rw [dot, Nat.min_self]
    exact Finset.sum_congr rfl (fun i _ => (pow_two _).symm)
  rw [hdd]
  exact Finset.sum_le_sum_of_subset_of_nonneg
    (Finset.range_subset.mpr hm) (fun i _ _ => sq_nonneg _)

/-- Cauchy–Schwarz for the list dot product. -/
lemma dot_sq_le (v w : List ℚ) : dot v w ^ 2 ≤ dot v v * dot w w := by
  have hcs : (∑ i ∈ Finset.range (min v.length w.length),
        v.getD i 0 * w.getD i 0) ^ 2 ≤
      (∑ i ∈ Finset.range (min v.length w.length), v.getD i 0 ^ 2) *
        ∑ i ∈ Finset.range (min v.length w.length), w.getD i 0 ^ 2 :=
    Finset.sum_mul_sq_le_sq_mul_sq _ _ _
  rw [dot]
  refine hcs.trans (mul_le_mul ?_ ?_ ?_ ?_)
  · exact sum_sq_le_dot_self v _ (min_le_left _ _)
  · exact sum_sq_le_dot_self w _ (min_le_right _ _)
  · exact Finset.sum_nonneg (fun i _ => sq_nonneg _)
  · exact dot_self_nonneg v

/-- Cosine similarity is symmetric. -/
lemma cosSim_comm (v w : List ℚ) : cosSim v w = cosSim w v := by
  by_cases h : dot v v = 0 ∨ dot w w = 0
  · rw [cosSim, if_pos h, cosSim, if_pos h.symm]
  · rw [cosSim, if_neg h, cosSim, if_neg (fun hc => h hc.symm),
      dot_comm w v, mul_comm]

/-- Cosine similarity of a pair involving a zero-magnitude vector is 0. -/
lemma cosSim_zero {v w : List ℚ} (h : dot v v = 0 ∨ dot w w = 0) :
    cosSim v w = 0 := by
  rw [cosSim, if_pos h]

/-- Cosine similarity always lies in the closed interval `[-1, 1]`. -/
lemma abs_cosSim_le_one (v w : List ℚ) : |cosSim v w| ≤ 1 := by
  rw [cosSim]
  split
  · simp
  · rename_i h
    push_neg at h
    obtain ⟨hv, hw⟩ := h
    have hvpos : (0 : ℝ) < (dot v v : ℚ) := by
      have := dot_self_nonneg v
      have : (0 : ℝ) ≤ (dot v v : ℚ) := by exact_mod_cast this
      rcases this.lt_or_eq with hlt | heq
      · exact hlt
      · exact absurd (by exact_mod_cast heq.symm) hv
    have hwpos : (0 : ℝ) < (dot w w : ℚ) := by
      have := dot_self_nonneg w
      have : (0 : ℝ) ≤ (dot w w : ℚ) := by exact_mod_cast this
      rcases this.lt_or_eq with hlt | heq
      · exact hlt
      · exact absurd (by exact_mod_cast heq.symm) hw
    have hden : (0 : ℝ) < Real.sqrt (dot v v : ℚ) * Real.sqrt (dot w w : ℚ) :=
      mul_pos (Real.sqrt_pos.mpr hvpos) (Real.sqrt_pos.mpr hwpos)
    rw [abs_div, abs_of_pos hden, div_le_one hden]
    have hsq : ((dot v w : ℚ) : ℝ) ^ 2 ≤ ((dot v v : ℚ) : ℝ) * ((dot w w : ℚ) : ℝ) := by
      exact_mod_cast dot_sq_le v w
    calc |((dot v w : ℚ) : ℝ)|
        = Real.sqrt (((dot v w : ℚ) : ℝ) ^ 2) := (Real.sqrt_sq_eq_abs _).symm
      _ ≤ Real.sqrt (((dot v v : ℚ) : ℝ) * ((dot w w : ℚ) : ℝ)) :=
          Real.sqrt_le_sqrt hsq
      _ = Real.sqrt (dot v v : ℚ) * Real.sqrt (dot w w : ℚ) :=
          Real.sqrt_mul hvpos.le _

/-- claim C4 — every off-diagonal entry of the similarity graph built from
the sentence vectors lies in `[-1, 1]`, the graph is symmetric, and an
entry involving a zero-magnitude vector (`dot v v = 0`, which for a sum of
squares of rationals is exactly "the vector has zero magnitude") is exactly
0 — a genuine real number, never a NaN. -/
theorem claim_c4 (vecs : List (List ℚ)) (i j : ℕ) (_hij : i ≠ j) :
    -1 ≤ build vecs i j ∧ build vecs i j ≤ 1 ∧
    build vecs i j = build vecs j i ∧
    ((dot (vecs.getD i []) (vecs.getD i []) = 0 ∨
      dot (vecs.getD j []) (vecs.getD j []) = 0) → build vecs i j = 0) := by
  have hb := abs_le.mp (abs_cosSim_le_one (vecs.getD i []) (vecs.getD j []))
  exact ⟨hb.1, hb.2, cosSim_comm _ _, fun h => cosSim_zero h⟩

/-- Witness for claim C4 at the concrete vector list `[[1], [0]]` and the
index pair `(0, 1)` (the second vector has zero magnitude, so the entry is
0, trivially within bounds and symmetric). -/
theorem claim_c4_witness :
    -1 ≤ build [[1], [0]] 0 1 ∧ build [[1], [0]] 0 1 ≤ 1 ∧
    build [[1], [0]] 0 1 = build [[1], [0]] 1 0 :=
  ⟨(claim_c4 [[1], [0]] 0 1 (by decide)).1,
   (claim_c4 [[1], [0]] 0 1 (by decide)).2.1,
   (claim_c4 [[1], [0]] 0 1 (by decide)).2.2.1⟩

/-- Exchanging the two summation indices of an off-diagonal double sum. -/
lemma sum_erase_swap {α : Type} [LinearOrderedField α] (S : ℕ) (F : ℕ → ℕ → α) :
    ∑ i ∈ Finset.range S, ∑ j ∈ (Finset.range S).erase i, F j i =
      ∑ j ∈ Finset.range S, ∑ i ∈ (Finset.range S).erase j, F j i := by
  have h1 : ∀ i ∈ Finset.range S,
      ∑ j ∈ (Finset.range S).erase i, F j i =
        (∑ j ∈ Finset.range S, F j i) - F i i := by
    intro i hi
    rw [← Finset.sum_erase_add _ _ hi]
    ring
  have h2 : ∀ j ∈ Finset.range S,
      ∑ i ∈ (Finset.range S).erase j, F j i =
        (∑ i ∈ Finset.range S, F j i) - F j j := by
    intro j hj
    rw [← Finset.sum_erase_add _ _ hj]
    ring
  rw [Finset.sum_congr rfl h1, Finset.sum_congr rfl h2,
    Finset.sum_sub_distrib, Finset.sum_sub_distrib, Finset.sum_comm]

/-- A ranking iteration preserves the total score exactly, provided every
sentence has nonzero total outgoing weight. -/
lemma rankStep_sum {α : Type} [LinearOrderedField α] (S : ℕ) (g : ℕ → ℕ → α)
    (s : ℕ → α) (hW : ∀ j ∈ Finset.range S, outW S g j ≠ 0)
    (hsum : ∑ i ∈ Finset.range S, s i = 1) :
    ∑ i ∈ Finset.range S, rankStep S g s i = 1 := by
  have hS0 : S ≠ 0 := by
    rintro rfl
    rw [Finset.range_zero, Finset.sum_empty] at hsum
    exact zero_ne_one hsum
  have hScast : (S : α) ≠ 0 := Nat.cast_ne_zero.mpr hS0
  have hrow : ∀ j ∈ Finset.range S,
      ∑ i ∈ (Finset.range S).erase j, neighborContrib S g s j i = s j := by
    intro j hj
    have hWj := hW j hj
    have hterm : ∀ i ∈ (Finset.range S).erase j,
        neighborContrib S g s j i = g j i * (s j / outW S g j) := by
      intro i _
      rw [neighborContrib, if_neg hWj]
      ring
    rw [Finset.sum_congr rfl hterm, ← Finset.sum_mul]
    rw [show ∑ i ∈ (Finset.range S).erase j, g j i = outW S g j from rfl]
    field_simp
  calc ∑ i ∈ Finset.range S, rankStep S g s i
      = ∑ i ∈ Finset.range S, ((1 - damping α) / (S : α)) +
        ∑ i ∈ Finset.range S, damping α *
          ∑ j ∈ (Finset.range S).erase i, neighborContrib S g s j i := by
        rw [← Finset.sum_add_distrib]
        rfl
    _ = (1 - damping α) + damping α *
        ∑ i ∈ Finset.range S, ∑ j ∈ (Finset.range S).erase i,
          neighborContrib S g s j i := by
        rw [Finset.sum_const, Finset.card_range, nsmul_eq_mul,
          mul_div_cancel₀ _ hScast, ← Finset.mul_sum]
    _ = (1 - damping α) + damping α *
        ∑ j ∈ Finset.range S, ∑ i ∈ (Finset.range S).erase j,
          neighborContrib S g s j i := by
        rw [sum_erase_swap S (neighborContrib S g s)]
    _ = (1 - damping α) + damping α * ∑ j ∈ Finset.range S, s j := by
        rw [Finset.sum_congr rfl hrow]
    _ = 1 := by rw [hsum]; ring

/-- The similarity graph of the four unit vectors `(1,0,0)`,
`(-3/5, 4/5, 0)`, `(0,1,0)`, `(0,1,0)`: a genuine cosine-similarity matrix
(all entries are exact dot products of unit vectors), with one negative
entry. -/
def gA : ℕ → ℕ → ℚ := fun i j =>
  if i = j then 1 else
  if (i = 0 ∧ j = 1) ∨ (i = 1 ∧ j = 0) then -3/5 else
  if (i = 0 ∧ j = 2) ∨ (i = 2 ∧ j = 0) then 0 else
  if (i = 0 ∧ j = 3) ∨ (i = 3 ∧ j = 0) then 0 else
  if (i = 1 ∧ j = 2) ∨ (i = 2 ∧ j = 1) then 4/5 else
  if (i = 1 ∧ j = 3) ∨ (i = 3 ∧ j = 1) then 4/5 else 1

/-- The four unit sentence vectors realizing `gA`. -/
def vA : List (List ℚ) := [[1, 0, 0], [-3/5, 4/5, 0], [0, 1, 0], [0, 1, 0]]

/-- The graph `gA` really is the similarity graph the pipeline builds from
the vectors `vA`: every entry of `build vA` agrees with `gA`. -/
lemma build_vA_eq_gA : ∀ i < 4, ∀ j < 4, build vA i j = (gA i j : ℚ) := by
  intro i hi j hj
  interval_cases i <;> interval_cases j <;>
    norm_num [build, cosSim, dot, vA, gA, Finset.sum_range_succ, Real.sqrt_one]

/-- The all-zero similarity graph (every sentence vector out of
vocabulary). -/
def gB : ℕ → ℕ → ℚ := fun _ _ => 0

/-- counterexample to claim C5 — on the genuine cosine-similarity graph
`gA` the score of sentence 0 after the first ranking iteration from the
uniform initialization is `-9/100 < 0`, refuting non-negativity; and on the
all-zero degenerate graph `gB` (two sentences) the first iteration shrinks
the total score from 1 to 3/20, refuting conservation. -/
theorem claim_c5_counterexample :
    rankStep 4 gA (rankInit ℚ 4) 0 < 0 ∧
    ((∑ i ∈ Finset.range 2, rankStep 2 gB (rankInit ℚ 2) i) ≠
      ∑ i ∈ Finset.range 2, rankInit ℚ 2 i) := by
  constructor
  · rw [rankStep, show (Finset.range 4).erase 0 = {1, 2, 3} from by decide]
    have h1 : outW 4 gA 1 = 1 := by
      rw [outW, show (Finset.range 4).erase 1 = {0, 2, 3} from by decide]
      norm_num [gA, Finset.sum_insert, Finset.mem_insert, Finset.mem_singleton]
    have h2 : outW 4 gA 2 = 9/5 := by
      rw [outW, show (Finset.range 4).erase 2 = {0, 1, 3} from by decide]
      norm_num [gA, Finset.sum_insert, Finset.mem_insert, Finset.mem_singleton]
    have h3 : outW 4 gA 3 = 9/5 := by
      rw [outW, show (Finset.range 4).erase 3 = {0, 1, 2} from by decide]
      norm_num [gA, Finset.sum_insert, Finset.mem_insert, Finset.mem_singleton]
    norm_num [neighborContrib, h1, h2, h3, gA, rankInit, damping,
      Finset.sum_insert, Finset.mem_insert, Finset.mem_singleton]
  · norm_num [Finset.sum_range_succ, rankStep, rankInit, neighborContrib,
      outW, damping, gB]

/-- claim C5 (amended) — scores are initialized uniformly to `1/S`; when
every edge weight is non-negative, scores stay non-negative across every
ranking iteration; and when additionally every sentence has nonzero total
outgoing weight and the current scores sum to 1 (as the uniform
initialization does for `S ≥ 1`), one ranking iteration preserves the sum
exactly. With negative cosine weights or zero-out-weight sentences (e.g.
the all-zero degenerate graph), non-negativity and conservation can fail. -/
theorem claim_c5_amended (α : Type) [LinearOrderedField α] (S : ℕ)
    (g : ℕ → ℕ → α) (s : ℕ → α) :
    (∀ i, rankInit α S i = 1 / (S : α)) ∧
    ((∀ i j, 0 ≤ g i j) → (∀ j, 0 ≤ s j) → ∀ i, 0 ≤ rankStep S g s i) ∧
    ((∀ j ∈ Finset.range S, outW S g j ≠ 0) →
      (∑ i ∈ Finset.range S, s i) = 1 →
      ∑ i ∈ Finset.range S, rankStep S g s i = 1) := by
  refine ⟨fun i => rfl, ?_, rankStep_sum S g s⟩
  intro hg hs i
  refine add_nonneg (div_nonneg (by norm_num [damping]) (Nat.cast_nonneg S))
    (mul_nonneg (by norm_num [damping]) (Finset.sum_nonneg fun j _ => ?_))
  rw [neighborContrib]
  split
  · exact le_refl 0
  · exact mul_nonneg
      (div_nonneg (hg j i) (Finset.sum_nonneg fun k _ => hg j k)) (hs j)

/-- The symmetric two-sentence graph with unit cross weight. -/
def gW : ℕ → ℕ → ℚ := fun i j => if i = j then 0 else 1

/-- Witness for the amended claim C5 on the two-sentence unit-weight graph:
from the uniform initialization one iteration keeps every score
non-negative and the total score exactly 1. -/
theorem claim_c5_amended_witness :
    0 ≤ rankStep 2 gW (rankInit ℚ 2) 0 ∧
    ∑ i ∈ Finset.range 2, rankStep 2 gW (rankInit ℚ 2) i = 1 := by
  have hg : ∀ i j, 0 ≤ gW i j := by
    intro i j
    rw [gW]
    split <;> norm_num
  have hs : ∀ j, 0 ≤ rankInit ℚ 2 j := by
    intro j
    norm_num [rankInit]
  have hW : ∀ j ∈ Finset.range 2, outW 2 gW j ≠ 0 := by
    intro j hj
    fin_cases hj
    · rw [outW, show (Finset.range 2).erase 0 = {1} from by decide]
      norm_num [gW]
    · rw [outW, show (Finset.range 2).erase 1 = {0} from by decide]
      norm_num [gW]
  have hsum : ∑ i ∈ Finset.range 2, rankInit ℚ 2 i = 1 := by
    norm_num [rankInit, Finset.sum_range_succ]
  exact ⟨(claim_c5_amended ℚ 2 gW (rankInit ℚ 2)).2.1 hg hs 0,
    (claim_c5_amended ℚ 2 gW (rankInit ℚ 2)).2.2 hW hsum⟩

/-- The convergence loop never performs more iterations than its fuel. -/
lemma rankGo_steps_le {α : Type} [LinearOrderedField α] (S : ℕ) (g : ℕ → ℕ → α) :
    ∀ (fuel : ℕ) (s : ℕ → α), (rankGo S g fuel s).2 ≤ fuel := by
  intro fuel
  induction fuel with
  | zero => intro s; exact le_refl 0
  | succ n ih =>
    intro s
    rw [rankGo]
    split
    · exact Nat.succ_le_succ (Nat.zero_le n)
    · exact Nat.succ_le_succ (ih _)

/-- claim C6 — the Ranker terminates: it performs at most `maxIter`
iterations; whenever the maximum absolute score change of a step falls
below the tolerance the loop stops immediately with that step's scores
after a single further iteration count; and the neighbor normalization
never divides by zero — a node with zero total outgoing weight contributes
exactly zero. -/
theorem claim_c6 (α : Type) [LinearOrderedField α] (S : ℕ) (g : ℕ → ℕ → α) :
    rankSteps S g ≤ maxIter ∧
    (∀ (s : ℕ → α) (fuel : ℕ),
      maxChange S s (rankStep S g s) < tol α →
      rankGo S g (fuel + 1) s = (rankStep S g s, 1)) ∧
    (∀ (s : ℕ → α) (j i : ℕ), outW S g j = 0 →
      neighborContrib S g s j i = 0) := by
  refine ⟨?_, ?_, ?_⟩
  · rw [rankSteps, rankResult]
    split
    · exact Nat.zero_le maxIter
    · exact rankGo_steps_le S g maxIter _
  · intro s fuel h
    rw [rankGo, if_pos h]
  · intro s j i h
    rw [neighborContrib, if_pos h]

/-- On the two-sentence unit-weight graph the uniform scores are already a
fixed point of the ranking iteration. -/
lemma rankStep_gW_fix (i : ℕ) (hi : i < 2) :
    rankStep 2 gW (rankInit ℚ 2) i = 1 / 2 := by
  interval_cases i
  · rw [rankStep, show (Finset.range 2).erase 0 = {1} from by decide]
    have h1 : outW 2 gW 1 = 1 := by
      rw [outW, show (Finset.range 2).erase 1 = {0} from by decide]
      norm_num [gW]
    norm_num [neighborContrib, h1, gW, rankInit, damping, Finset.sum_singleton]
  · rw [rankStep, show (Finset.range 2).erase 1 = {0} from by decide]
    have h0 : outW 2 gW 0 = 1 := by
      rw [outW, show (Finset.range 2).erase 0 = {1} from by decide]
      norm_num [gW]
    norm_num [neighborContrib, h0, gW, rankInit, damping, Finset.sum_singleton]

/-- Witness for claim C6: the iteration count is within the cap on both
concrete graphs; on the converged two-sentence graph the loop stops after
one iteration; and on the all-zero graph a dangling node's contribution is
zero. -/
theorem claim_c6_witness :
    rankSteps 2 gW ≤ maxIter ∧
    rankGo 2 gW 1 (rankInit ℚ 2) = (rankStep 2 gW (rankInit ℚ 2), 1) ∧
    neighborContrib 2 gB (rankInit ℚ 2) 0 1 = 0 := by
  have hconv : maxChange 2 (rankInit ℚ 2) (rankStep 2 gW (rankInit ℚ 2)) < tol ℚ := by
    rw [maxChange, show List.range 2 = [0, 1] from rfl]
    rw [List.map_cons, List.map_cons, List.map_nil,
      rankStep_gW_fix 0 (by norm_num), rankStep_gW_fix 1 (by norm_num)]
    norm_num [rankInit, tol]
  have hout : outW 2 gB 0 = 0 := by
    rw [outW, show (Finset.range 2).erase 0 = {1} from by decide]
    norm_num [gB]
  exact ⟨(claim_c6 ℚ 2 gW).1,
    (claim_c6 ℚ 2 gW).2.1 (rankInit ℚ 2) 0 hconv,
    (claim_c6 ℚ 2 gB).2.2 (rankInit ℚ 2) 0 1 hout⟩

/-- claim C7 — `summarize` is deterministic: two calls with identical
arguments against extensionally equal (unchanged) Embedding Stores yield
identical output summaries, and `vectorize` yields an identical vector for
an identical token sequence (it reads nothing else of the sentence: no
randomness, no extra state). -/
theorem claim_c7 (st1 st2 : Store) (doc : Str) (k : ℕ)
    (hdim : st1.dim = st2.dim) (hl : ∀ t, st1.lookup t = st2.lookup t) :
    summarize st1 doc k = summarize st2 doc k ∧
    (∀ s1 s2 : Sentence, s1.toks = s2.toks →
      vectorize st1 s1 = vectorize st1 s2) := by
  have hst : st1 = st2 := by
    cases st1
    cases st2
    simp only [Store.mk.injEq]
    exact ⟨hdim, funext hl⟩
  subst hst
  refine ⟨rfl, ?_⟩
  intro s1 s2 hts
  rw [vectorize, vectorize, hts]

/-- Witness for claim C7: a concrete store compared with itself on a
concrete document, and two sentences with different texts but the same
token sequence getting the same vector. -/
theorem claim_c7_witness :
    summarize st0 "a. b.".data 2 = summarize st0 "a. b.".data 2 ∧
    vectorize st0 ⟨"x".data, ["dog".data]⟩ = vectorize st0 ⟨"y".data, ["dog".data]⟩ :=
  ⟨(claim_c7 st0 st0 "a. b.".data 2 rfl (fun _ => rfl)).1,
   (claim_c7 st0 st0 "a. b.".data 2 rfl (fun _ => rfl)).2
     ⟨"x".data, ["dog".data]⟩ ⟨"y".data, ["dog".data]⟩ rfl⟩

end Summarizer
